import Mathlib

/-!
Shallow embedding of the ai-learning-platform server code, together with
theorems settling the specification claims against it.

Each definition is translated from one named JavaScript source location:
  * `Redis.*`     — src/server/config/redis.js (cache helper functions)
  * `Execute.*`   — src/server/routes/execute.js (code/command execution)
  * `App.*`       — src/server/routes/lessons.js and src/server/routes/progress.js
                    (lesson/topic progress handlers, streak and daily activity)
  * `Auth.*`      — the auth router (POST /register)
  * `Courses.*`   — src/server/routes/courses.js GET /, the admin
                    PUT /courses/:courseId handler, and the redis KEYS glob
  * `Leaderboard.*` — the leaderboard router (GET /, type=all)

JavaScript value conventions used throughout the embedding:
  * nullable values are `Option _`;
  * `a || b` on strings (falsy = "") is `jsOrString`;
  * `a || b` on nullable numbers is `jsOrInt`;
  * a function that may `throw` is modelled with the `JsResult` sum;
  * dates compared as ISO `YYYY-MM-DD` strings (whose lexicographic order is
    day order) are modelled as `Int` day numbers, `yesterday = today - 1`.
-/

/-- JavaScript `a || b` where `a` is a string and falsy means `""`. -/
def jsOrString (a b : String) : String :=
  if a = "" then b else a

/-- JavaScript `a || b` where `a` is a nullable number and falsy means
`null` or `0`. -/
def jsOrInt (a : Option Int) (b : Int) : Int :=
  match a with
  | none => b
  | some n => if n = 0 then b else n

/-- Outcome of a JavaScript call that may throw. -/
inductive JsResult (α : Type) where
  | ok (a : α) : JsResult α
  | thrown (e : String) : JsResult α
deriving Repr, DecidableEq

/-- `try { body } catch { return fallback }`. -/
def jsTryCatch {α : Type} (body : JsResult α) (fallback : α) : JsResult α :=
  match body with
  | .ok a => .ok a
  | .thrown _ => .ok fallback

namespace Redis

/-- The connected redis client, opaque to the cache helpers. -/
structure Client where
  unit : Unit
deriving Repr, DecidableEq

/--
`cacheGet` from src/server/config/redis.js.  `client` is the value of
`getRedisClient()` (`none` when redis is unavailable); `rawGet` is the
outcome of `client.get(key)` (a nullable string that may throw); `parse` is
`JSON.parse`.  The whole body is wrapped in `try/catch` returning `null`.
-/
def cacheGet {Json : Type} (client : Option Client)
    (rawGet : JsResult (Option String)) (parse : String → JsResult Json) :
    JsResult (Option Json) :=
  jsTryCatch
    (match client with
     | none => .ok none
     | some _ =>
       match rawGet with
       | .thrown e => .thrown e
       | .ok data =>
         match data with
         | none => .ok none
         | some s =>
           if s = "" then .ok none
           else
             match parse s with
             | .thrown e => .thrown e
             | .ok j => .ok (some j))
    none

/-- `cacheSet` from redis.js: `client.setEx(...)` wrapped in `try/catch`. -/
def cacheSet (client : Option Client) (rawSetEx : JsResult Unit) :
    JsResult Unit :=
  jsTryCatch
    (match client with
     | none => .ok ()
     | some _ => rawSetEx)
    ()

/-- `cacheDelete` from redis.js: `client.del(key)` wrapped in `try/catch`. -/
def cacheDelete (client : Option Client) (rawDel : JsResult Nat) :
    JsResult Unit :=
  jsTryCatch
    (match client with
     | none => .ok ()
     | some _ =>
       match rawDel with
       | .thrown e => .thrown e
       | .ok _ => .ok ())
    ()

/--
`cacheDeletePattern` from redis.js: `client.keys(pattern)` followed by
`client.del(keys)` when the key list is non-empty, wrapped in `try/catch`.
-/
def cacheDeletePattern (client : Option Client)
    (rawKeys : JsResult (List String)) (rawDel : List String → JsResult Nat) :
    JsResult Unit :=
  jsTryCatch
    (match client with
     | none => .ok ()
     | some _ =>
       match rawKeys with
       | .thrown e => .thrown e
       | .ok keys =>
         if keys.length > 0 then
           match rawDel keys with
           | .thrown e => .thrown e
           | .ok _ => .ok ()
         else .ok ())
    ()

end Redis

/-- `sub.isPrefixOf s || listIncludes rest sub` — JavaScript
`String.includes` on explicit character lists. -/
def listIncludes (s sub : List Char) : Bool :=
  match s with
  | [] => sub.isEmpty
  | _ :: rest => sub.isPrefixOf s || listIncludes rest sub

/-- JavaScript `s.includes(sub)`. -/
def strIncludes (s sub : String) : Bool :=
  listIncludes s.toList sub.toList

/-- JavaScript `s.startsWith(pre)` (on the character list, so that proofs
can evaluate it). -/
def jsStartsWith (s pre : String) : Bool :=
  pre.toList.isPrefixOf s.toList

/-- JavaScript `s.toLowerCase()`. -/
def jsToLower (s : String) : String :=
  String.mk (s.toList.map Char.toLower)

/-- Split a character list at runs of whitespace, keeping the non-empty
tokens — JavaScript `s.trim().split(/\s+/)` (`acc` holds the reversed
current token). -/
def splitWsAux : List Char → List Char → List (List Char)
  | [], acc => if acc.isEmpty then [] else [acc.reverse]
  | c :: rest, acc =>
    if c.isWhitespace then
      if acc.isEmpty then splitWsAux rest []
      else acc.reverse :: splitWsAux rest []
    else splitWsAux rest (c :: acc)

/-- The whitespace-separated tokens of a string. -/
def splitWsTokens (s : String) : List (List Char) :=
  splitWsAux s.toList []

namespace Execute

/-- The fields of a Node.js `exec` error object that execute.js reads:
`error.signal`, `error.code`, `error.message`. -/
structure ExecError where
  signal : Option String
  code : Option Int
  message : String
deriving Repr, DecidableEq

/-- The `(error, stdout, stderr)` triple delivered to the `exec` callback. -/
inductive ExecOutcome where
  | completed (stdout stderr : String) : ExecOutcome
  | failed (error : ExecError) (stdout stderr : String) : ExecOutcome
deriving Repr, DecidableEq

/-- The `{success, output, error, exitCode}` payload of `executeCode`. -/
structure ExecResult where
  success : Bool
  output : String
  error : String
  exitCode : Int
deriving Repr, DecidableEq

/-- The `{success, output, error}` payload of `executeCommand`. -/
structure CommandResult where
  success : Bool
  output : String
  error : String
deriving Repr, DecidableEq

/-- How the promise executor finishes: execute.js only ever calls
`resolve`, but the type records that `reject` was available. -/
inductive Settle (α : Type) where
  | resolve (a : α) : Settle α
  | reject (e : String) : Settle α
deriving Repr, DecidableEq

/-- `const timeout = 10000` in `executeCode` (milliseconds). -/
def codeTimeoutMs : Nat := 10000

/-- `const timeout = 5000` in `executeCommand` (milliseconds). -/
def commandTimeoutMs : Nat := 5000

/-- The signal sent by the timeout handler: `process.kill('SIGTERM')`. -/
def timeoutKillSignal : String := "SIGTERM"

/-- The timeout-specific error string in `executeCode`. -/
def codeTimeoutMessage : String :=
  "Execution timeout: Code took too long to execute (max 10 seconds)"

/-- The `exec` callback of `executeCode` (lines 128-192 of execute.js),
mapping the `(error, stdout, stderr)` outcome to the resolved value.  Every
path calls `resolve`. -/
def executeCodeSettle (o : ExecOutcome) : Settle ExecResult :=
  match o with
  | .failed error stdout stderr =>
    if error.signal = some "SIGTERM" then
      .resolve
        { success := false
          output := ""
          error := codeTimeoutMessage
          exitCode := jsOrInt error.code 1 }
    else
      let errorOutput := jsOrString stderr error.message
      let stdOutput := jsOrString stdout ""
      if strIncludes errorOutput "error:" || strIncludes errorOutput "Exception" then
        .resolve
          { success := false
            output := stdOutput
            error := errorOutput
            exitCode := jsOrInt error.code 1 }
      else
        .resolve
          { success := false
            output := stdOutput
            error := jsOrString errorOutput "Execution failed"
            exitCode := jsOrInt error.code 1 }
  | .completed stdout stderr =>
    .resolve
      { success := true
        output := jsOrString stdout ""
        error := jsOrString stderr ""
        exitCode := 0 }

/-- The `exec` callback of `executeCommand` (lines 238-277 of execute.js). -/
def executeCommandSettle (o : ExecOutcome) : Settle CommandResult :=
  match o with
  | .failed error stdout stderr =>
    if error.signal = some "SIGTERM" then
      .resolve { success := false, output := "", error := "Command timeout" }
    else
      .resolve
        { success := false
          output := jsOrString stdout ""
          error := jsOrString stderr error.message }
  | .completed stdout stderr =>
    .resolve
      { success := true
        output := jsOrString stdout ""
        error := jsOrString stderr "" }

/-- `const safeCommands = [...]` in POST /command. -/
def safeCommands : List String :=
  ["ls", "pwd", "echo", "cat", "head", "tail", "grep", "wc", "date", "whoami"]

/-- `const languageCommands = {...}` in POST /command. -/
def languageCommands (lang : String) : List String :=
  if lang = "python" then ["python3", "python", "pip", "pip3"]
  else if lang = "java" then ["javac", "java", "javap"]
  else if lang = "nodejs" then ["node", "npm", "npx"]
  else if lang = "golang" then ["go", "gofmt", "goimports"]
  else []

/-- `allowedCommands = [...safeCommands, ...(languageCommands[language?.toLowerCase()] || [])]`. -/
def allowedCommands (language : Option String) : List String :=
  safeCommands ++
    (match language with
     | some l => languageCommands (jsToLower l)
     | none => [])

/-- `commandParts = command.trim().split(/\s+/)`; `baseCommand = commandParts[0]`
(the empty string when the trimmed command has no token, as in JavaScript). -/
def baseCommandOf (command : String) : String :=
  match splitWsTokens command with
  | [] => ""
  | t :: _ => String.mk t

/-- The rejection message built by POST /command. -/
def notAllowedMessage (baseCommand : String) (allowed : List String) : String :=
  "Command \"" ++ baseCommand ++ "\" is not allowed for security reasons. " ++
    "Allowed commands: " ++ String.intercalate ", " allowed

/-- What the POST /command handler does with a request before any child
process may be spawned. -/
inductive CommandAction where
  | badRequest (message : String) : CommandAction
  | respond (r : CommandResult) : CommandAction
  | spawn (command : String) : CommandAction
deriving Repr, DecidableEq

/-- The POST /command handler (lines 196-236 of execute.js) up to the point
where it either rejects the request or calls `executeCommand` (which spawns
the command via `exec`). -/
def handleCommand (command : String) (language : Option String) : CommandAction :=
  if command = "" then .badRequest "Command is required"
  else
    let baseCommand := baseCommandOf command
    let allowed := allowedCommands language
    if ¬ allowed.contains baseCommand ∧ ¬ jsStartsWith command "cd " then
      .respond
        { success := false
          output := ""
          error := notAllowedMessage baseCommand allowed }
    else .spawn command

end Execute

namespace App

/-- A row of the `users` table, restricted to the columns the progress
handlers read or write.  `last_activity_date` is a `DATE` (nullable),
modelled as a day number. -/
structure User where
  id : Nat
  username : String
  total_points : Int
  currency : Int
  current_streak : Int
  longest_streak : Int
  last_activity_date : Option Int
deriving Repr, DecidableEq

/-- A row of `user_progress` (per-topic progress). -/
structure TopicRow where
  user_id : Nat
  topic : String
  progress_percentage : Int
  completed : Bool
  points_earned : Int
  completed_at : Option Int
deriving Repr, DecidableEq

/-- A row of `lesson_progress`. -/
structure LessonRow where
  user_id : Nat
  lesson_id : Nat
  progress_percentage : Int
  completed : Bool
  points_earned : Int
  completed_at : Option Int
deriving Repr, DecidableEq

/-- A row of `daily_activity`. -/
structure DailyRow where
  user_id : Nat
  activity_date : Int
  points_earned : Int
  topics_completed : Int
deriving Repr, DecidableEq

/-- The persistent state the progress routes touch: the four tables (each a
list of rows in insertion order) and the redis keyspace (values opaque). -/
structure AppState where
  users : List User
  userProgress : List TopicRow
  lessonProgress : List LessonRow
  dailyActivity : List DailyRow
  cache : List (String × String)
deriving Repr, DecidableEq

/-- Effect of `cacheDelete(key)` on the redis keyspace. -/
def dropCacheKey (key : String) (cache : List (String × String)) :
    List (String × String) :=
  cache.filter (fun kv => kv.1 ≠ key)

/--
`updateStreak(userId)` — identical helper in src/server/routes/lessons.js
(lines 79-112) and src/server/routes/progress.js (lines 194-212).
`today` is `new Date().toISOString().split('T')[0]` and `yesterday` is the
same for `Date.now() - 86400000`; ISO date strings compare lexicographically
in day order, so both are day numbers here.  On the early `return` (already
active today) nothing is written.
-/
def updateStreak (today : Int) (userId : Nat) (st : AppState) : AppState :=
  match st.users.find? (fun u => u.id == userId) with
  | none => st
  | some user =>
    let lastActivity := user.last_activity_date
    let yesterday := today - 1
    if lastActivity = some today then st
    else
      let newStreak : Int :=
        if lastActivity = some yesterday then user.current_streak + 1
        else if (match lastActivity with
                 | none => true
                 | some d => decide (d < yesterday)) then 1
        else user.current_streak
      let longestStreak := max newStreak user.longest_streak
      { st with users := st.users.map (fun v =>
          if v.id = userId then
            { v with current_streak := newStreak
                     longest_streak := longestStreak
                     last_activity_date := some today }
          else v) }

/-- The per-user effect of `updateStreak`: what the found `users` row looks
like after the call (identity on the early `return`). -/
def streakResult (today : Int) (u : User) : User :=
  if u.last_activity_date = some today then u
  else
    let yesterday := today - 1
    let newStreak : Int :=
      if u.last_activity_date = some yesterday then u.current_streak + 1
      else if (match u.last_activity_date with
               | none => true
               | some d => decide (d < yesterday)) then 1
      else u.current_streak
    { u with current_streak := newStreak
             longest_streak := max newStreak u.longest_streak
             last_activity_date := some today }

/-- `updateDailyActivity(userId, points, topicsCompleted)` — identical
helper in lessons.js and progress.js: upsert on `(user_id, activity_date)`,
adding to the existing counters. -/
def updateDailyActivity (today : Int) (userId : Nat) (points : Int)
    (completedCount : Int) (st : AppState) : AppState :=
  if st.dailyActivity.any
      (fun r => r.user_id == userId && r.activity_date == today) then
    { st with dailyActivity := st.dailyActivity.map (fun r =>
        if r.user_id = userId ∧ r.activity_date = today then
          { r with points_earned := r.points_earned + points
                   topics_completed := r.topics_completed + completedCount }
        else r) }
  else
    { st with dailyActivity := st.dailyActivity ++
        [{ user_id := userId, activity_date := today,
           points_earned := points, topics_completed := completedCount }] }

/-- The `lesson_progress` upsert of POST /:lessonId/progress: UPDATE every
row matching `(user_id, lesson_id)` when one exists, INSERT otherwise. -/
def lessonUpsert (today : Int) (userId lessonId : Nat) (pp : Int)
    (isCompleted : Bool) (points : Int) (st : AppState) : AppState :=
  if st.lessonProgress.any
      (fun r => r.user_id == userId && r.lesson_id == lessonId) then
    { st with lessonProgress := st.lessonProgress.map (fun r =>
        if r.user_id = userId ∧ r.lesson_id = lessonId then
          { r with progress_percentage := pp
                   completed := isCompleted
                   points_earned := points
                   completed_at := if isCompleted then some today else none }
        else r) }
  else
    { st with lessonProgress := st.lessonProgress ++
        [{ user_id := userId, lesson_id := lessonId,
           progress_percentage := pp, completed := isCompleted,
           points_earned := points,
           completed_at := if isCompleted then some today else none }] }

/-- The `user_progress` upsert of POST /update (per-topic), same shape. -/
def topicUpsert (today : Int) (userId : Nat) (topic : String) (pp : Int)
    (isCompleted : Bool) (points : Int) (st : AppState) : AppState :=
  if st.userProgress.any
      (fun r => r.user_id == userId && r.topic == topic) then
    { st with userProgress := st.userProgress.map (fun r =>
        if r.user_id = userId ∧ r.topic = topic then
          { r with progress_percentage := pp
                   completed := isCompleted
                   points_earned := points
                   completed_at := if isCompleted then some today else none }
        else r) }
  else
    { st with userProgress := st.userProgress ++
        [{ user_id := userId, topic := topic,
           progress_percentage := pp, completed := isCompleted,
           points_earned := points,
           completed_at := if isCompleted then some today else none }] }

/-- `UPDATE users SET total_points = total_points + $1, currency =
currency + $2 WHERE id = $3` with both parameters equal to `points`. -/
def addPoints (userId : Nat) (points : Int) (st : AppState) : AppState :=
  { st with users := st.users.map (fun u =>
      if u.id = userId then
        { u with total_points := u.total_points + points
                 currency := u.currency + points }
      else u) }

/-- The two `cacheDelete` calls at the end of both progress handlers. -/
def clearUserCache (userId : Nat) (st : AppState) : AppState :=
  { st with cache :=
      (dropCacheKey ("user:" ++ toString userId ++ ":profile")
        (dropCacheKey ("user:" ++ toString userId ++ ":progress") st.cache)) }

/-- Response of the two progress handlers (only the parts the claims are
about: the 400 branch, and the success payload's `points_earned`). -/
inductive ProgressResponse where
  | badRequest (error : String) : ProgressResponse
  | updated (points_earned : Int) : ProgressResponse
deriving Repr, DecidableEq

/--
POST /api/lessons/:lessonId/progress (lines 19-65 of lessons.js).
`progress_percentage` is `none` when absent from the body (the 400 branch);
`completed` is the request-body flag read with JavaScript truthiness.
Steps, in source order: upsert the `lesson_progress` row; `if (points > 0
&& isCompleted)` add the points to the user's `total_points` and `currency`;
`updateStreak`; `updateDailyActivity`; delete the two user cache keys.
-/
def updateLessonProgress (today : Int) (userId : Nat) (lessonId : Nat)
    (progress_percentage : Option Int) (completed : Bool) (st : AppState) :
    AppState × ProgressResponse :=
  match progress_percentage with
  | none => (st, .badRequest "Progress percentage is required")
  | some pp =>
    let isCompleted : Bool := completed || pp == 100
    let points : Int := if isCompleted then 10 else 0
    let st1 := lessonUpsert today userId lessonId pp isCompleted points st
    let st2 :=
      if 0 < points ∧ isCompleted = true then addPoints userId points st1
      else st1
    let st3 := updateStreak today userId st2
    let st4 :=
      updateDailyActivity today userId points (if isCompleted then 1 else 0) st3
    (clearUserCache userId st4, .updated points)

/--
POST /api/progress/update (lines 27-58 of progress.js), per-topic progress.
`points_earned` is the optional body field, combined with the fallback by
JavaScript `||` (so `0` also falls back); the user's totals are increased
under `if (points > 0)` alone.
-/
def updateTopicProgress (today : Int) (userId : Nat) (topic : String)
    (progress_percentage : Option Int) (points_earned : Option Int)
    (st : AppState) : AppState × ProgressResponse :=
  if topic = "" ∨ progress_percentage = none then
    (st, .badRequest "Topic and progress are required")
  else
    match progress_percentage with
    | none => (st, .badRequest "Topic and progress are required")
    | some pp =>
      let isCompleted : Bool := pp == 100
      let points : Int := jsOrInt points_earned (if isCompleted then 10 else 0)
      let st1 := topicUpsert today userId topic pp isCompleted points st
      let st2 := if 0 < points then addPoints userId points st1 else st1
      let st3 := updateStreak today userId st2
      let st4 :=
        updateDailyActivity today userId points (if isCompleted then 1 else 0) st3
      (clearUserCache userId st4, .updated points)

/-- One progress-update request, for reasoning about request sequences. -/
inductive POp where
  | topicOp (userId : Nat) (topic : String) (pp : Option Int)
      (points_earned : Option Int) : POp
  | lessonOp (userId : Nat) (lessonId : Nat) (pp : Option Int)
      (completed : Bool) : POp
deriving Repr, DecidableEq

/-- State transition of one request. -/
def applyOp (today : Int) (st : AppState) (op : POp) : AppState :=
  match op with
  | .topicOp u t pp pe => (updateTopicProgress today u t pp pe st).1
  | .lessonOp u l pp c => (updateLessonProgress today u l pp c st).1

/-- State after a sequence of requests. -/
def applyOps (today : Int) (st : AppState) (ops : List POp) : AppState :=
  ops.foldl (applyOp today) st

/-- Sum of `points_earned` over the `user_progress` rows of one user. -/
def topicPointsOf (rows : List TopicRow) (uid : Nat) : Int :=
  ((rows.filter (fun r => r.user_id == uid)).map (fun r => r.points_earned)).sum

/-- Sum of `points_earned` over the `lesson_progress` rows of one user. -/
def lessonPointsOf (rows : List LessonRow) (uid : Nat) : Int :=
  ((rows.filter (fun r => r.user_id == uid)).map (fun r => r.points_earned)).sum

/-- Sum of `points_earned` over all of a user's progress rows. -/
def progressSum (st : AppState) (uid : Nat) : Int :=
  topicPointsOf st.userProgress uid + lessonPointsOf st.lessonProgress uid

/-- The §3 invariant: every user's `total_points` and `currency` equal the
sum of `points_earned` over that user's progress rows. -/
def Consistent (st : AppState) : Prop :=
  ∀ u ∈ st.users,
    u.total_points = progressSum st u.id ∧ u.currency = progressSum st u.id

/-- The streak invariant: no user's `current_streak` exceeds their
`longest_streak`. -/
def StreakInv (st : AppState) : Prop :=
  ∀ u ∈ st.users, u.current_streak ≤ u.longest_streak

/-- First `users` row with the given id (`SELECT ... WHERE id = $1`,
`rows[0]`). -/
def getUser (st : AppState) (uid : Nat) : Option User :=
  st.users.find? (fun u => u.id == uid)

/-- The progress-table key a request writes, for stating key-distinctness
of a request sequence. -/
def opKey : POp → (Nat × String) ⊕ (Nat × Nat)
  | .topicOp u t _ _ => .inl (u, t)
  | .lessonOp u l _ _ => .inr (u, l)

/-- The request's key has no row yet in the relevant progress table (the
handler will take its INSERT branch). -/
def opFresh (st : AppState) : POp → Bool
  | .topicOp u t _ _ =>
      ! st.userProgress.any (fun r => r.user_id == u && r.topic == t)
  | .lessonOp u l _ _ =>
      ! st.lessonProgress.any (fun r => r.user_id == u && r.lesson_id == l)

/-- The request does not carry a negative `points_earned` body field. -/
def opNonneg : POp → Bool
  | .topicOp _ _ _ pe =>
      match pe with
      | none => true
      | some p => decide (0 ≤ p)
  | .lessonOp _ _ _ _ => true

/-- First `lesson_progress` row for the given key. -/
def getLessonRow (st : AppState) (uid lessonId : Nat) : Option LessonRow :=
  st.lessonProgress.find? (fun r => r.user_id == uid && r.lesson_id == lessonId)

end App

namespace Auth

/-- A full `users` row as the register handler creates it (gamification
columns start at their schema defaults). -/
structure UserRow where
  id : Nat
  username : String
  email : String
  password_hash : String
  currency : Int
  total_points : Int
deriving Repr, DecidableEq

/-- The `users` table for the auth router. -/
structure AuthState where
  users : List UserRow
  nextId : Nat
deriving Repr, DecidableEq

/-- Response of POST /register, keeping the status and the fields the
claim is about. -/
inductive RegisterResponse where
  | badRequest (error : String) : RegisterResponse
  | created (user : UserRow) : RegisterResponse
deriving Repr, DecidableEq

/--
POST /api/auth/register: reject empty fields (JavaScript falsy) with 400;
reject with 400 "User already exists" when some row matches
`email = $1 OR username = $2`; otherwise insert a new row.  `hash` stands
for `bcrypt.hash(password, 10)`.
-/
def register (hash : String → String) (st : AuthState)
    (username email password : String) : AuthState × RegisterResponse :=
  if username = "" ∨ email = "" ∨ password = "" then
    (st, .badRequest "All fields are required")
  else if st.users.any (fun u => u.email == email || u.username == username) then
    (st, .badRequest "User already exists")
  else
    let user : UserRow :=
      { id := st.nextId, username := username, email := email,
        password_hash := hash password, currency := 0, total_points := 0 }
    ({ users := st.users ++ [user], nextId := st.nextId + 1 }, .created user)

end Auth

namespace Leaderboard

/-- `(total_points + (current_streak * 10)) as score` — the type=all
leaderboard score. -/
def scoreAll (u : App.User) : Int :=
  u.total_points + u.current_streak * 10

/-- `out` is weakly sorted descending under `f`. -/
def SortedDescBy (f : App.User → Int) (out : List App.User) : Prop :=
  List.Pairwise (fun a b => f b ≤ f a) out

/--
Semantics of the type=all leaderboard query
`SELECT ... ORDER BY score DESC LIMIT $1`: SQL fixes the result only up to
the ORDER BY key, so a valid result is any reordering of the table that is
weakly descending in `scoreAll`, truncated to `limit` rows.  (The query has
no tiebreaker, so rows of equal score may come back in any order.)
-/
def ValidLeaderboardAll (limit : Nat) (users out : List App.User) : Prop :=
  ∃ s : List App.User, s.Perm users ∧ SortedDescBy scoreAll s ∧ out = s.take limit

end Leaderboard

namespace Courses

/-- Redis `KEYS` glob matching over character lists: `*` matches any run
(the rest of the pattern must match some suffix), `?` matches one
character, anything else matches itself. -/
def globMatchList : List Char → List Char → Bool
  | [], s => s.isEmpty
  | '*' :: ps, s => s.tails.any (fun suffix => globMatchList ps suffix)
  | '?' :: ps, s =>
    match s with
    | [] => false
    | _ :: ss => globMatchList ps ss
  | p :: ps, s =>
    match s with
    | [] => false
    | c :: ss => p = c && globMatchList ps ss

/-- Redis `KEYS pattern` match on strings. -/
def globMatch (pattern key : String) : Bool :=
  globMatchList pattern.toList key.toList

/-- A row of the `courses` table. -/
structure Course where
  id : Nat
  name : String
  slug : String
  description : Option String
  icon : Option String
deriving Repr, DecidableEq

/-- A row of the `lessons` table, restricted to what GET /api/courses
reads. -/
structure Lesson where
  id : Nat
  course_id : Nat
deriving Repr, DecidableEq

/-- One element of the GET /api/courses response: the course row spread
together with the two computed counts. -/
structure CourseOut where
  course : Course
  total_lessons : Nat
  completed_lessons : Nat
deriving Repr, DecidableEq

/-- A cached JSON value: either a cached GET /api/courses response or some
other cached payload. -/
inductive CachedJson where
  | courseList (cs : List CourseOut) : CachedJson
  | blob (s : String) : CachedJson
deriving Repr, DecidableEq

/-- The state the course routes touch: the `courses` and `lessons` tables,
a user's `lesson_progress` rows, and the redis keyspace. -/
structure CourseState where
  courses : List Course
  lessons : List Lesson
  lessonProgress : List App.LessonRow
  cache : List (String × CachedJson)
deriving Repr, DecidableEq

/-- Redis GET on the modelled keyspace (first binding wins). -/
def cacheLookup (cache : List (String × CachedJson)) (key : String) :
    Option CachedJson :=
  (cache.find? (fun kv => kv.1 == key)).map (fun kv => kv.2)

/-- `cacheDeletePattern(pattern)`: `KEYS pattern` then `DEL` of every match. -/
def cacheDropPattern (pattern : String)
    (cache : List (String × CachedJson)) : List (String × CachedJson) :=
  cache.filter (fun kv => ¬ globMatch pattern kv.1)

/-- `cacheSet(key, value)`: redis SET overwrites the binding. -/
def cacheStore (key : String) (value : CachedJson)
    (cache : List (String × CachedJson)) : List (String × CachedJson) :=
  (key, value) :: cache.filter (fun kv => kv.1 ≠ key)

/-- The database part of GET /api/courses: courses ordered by name
(UNIQUE), each with its lesson count and — when a user id was decoded from
the bearer token — that user's completed-lesson count. -/
def coursesFromDb (st : CourseState) (userId : Option Nat) : List CourseOut :=
  (st.courses.mergeSort (fun a b => a.name ≤ b.name)).map (fun c =>
    { course := c
      total_lessons := (st.lessons.filter (fun l => l.course_id == c.id)).length
      completed_lessons :=
        match userId with
        | none => 0
        | some uid =>
          (st.lessonProgress.filter (fun lp =>
            lp.user_id == uid && lp.completed &&
              st.lessons.any (fun l => l.id == lp.lesson_id && l.course_id == c.id))).length })

/--
GET /api/courses (lines 9-65 of courses.js): return the `courses:all`
cache entry when present; otherwise compute the list from the database,
cache it under `courses:all` (TTL 300), and return it.
-/
def getCourses (st : CourseState) (userId : Option Nat) :
    CachedJson × CourseState :=
  match cacheLookup st.cache "courses:all" with
  | some cached => (cached, st)
  | none =>
    let courses := coursesFromDb st userId
    (.courseList courses,
     { st with cache := cacheStore "courses:all" (.courseList courses) st.cache })

/-- Join character-list tokens with `'-'`. -/
def joinDash : List (List Char) → List Char
  | [] => []
  | [t] => t
  | t :: rest => t ++ '-' :: joinDash rest

/-- `.toLowerCase().trim().replace(/\s+/g, '-').replace(/[^a-z0-9-]/g, '')`
— the admin router's slug normalization (on a trimmed string, replacing
each whitespace run by one dash is joining the tokens with dashes). -/
def normalizeSlug (s : String) : String :=
  let dashed := joinDash (splitWsTokens (jsToLower s))
  String.mk (dashed.filter (fun c =>
    (('a' ≤ c ∧ c ≤ 'z') ∨ ('0' ≤ c ∧ c ≤ '9') ∨ c = '-')))

/-- Body of PUT /api/admin/courses/:courseId: each field optional;
`description`/`icon` distinguish absent from explicit null. -/
structure UpdateCourseReq where
  name : Option String
  slug : Option String
  description : Option (Option String)
  icon : Option (Option String)
deriving Repr, DecidableEq

/-- Apply the dynamic `SET` list of the UPDATE statement to one row. -/
def applyCourseUpdate (req : UpdateCourseReq) (c : Course) : Course :=
  let c1 := match req.name with
    | some n => { c with name := n }
    | none => c
  let c2 := match req.slug with
    | some s => { c1 with slug := normalizeSlug s }
    | none => match req.name with
      | some n => { c1 with slug := normalizeSlug n }
      | none => c1
  let c3 := match req.description with
    | some d => { c2 with description := d }
    | none => c2
  match req.icon with
  | some i => { c3 with icon := i }
  | none => c3

/-- Response of PUT /api/admin/courses/:courseId. -/
inductive UpdateCourseResponse where
  | badRequest (error : String) : UpdateCourseResponse
  | notFound : UpdateCourseResponse
  | updated (course : Course) : UpdateCourseResponse
deriving Repr, DecidableEq

/--
PUT /api/admin/courses/:courseId (the admin router): 400 when no field is
given; UPDATE ... WHERE id RETURNING (404 when no row matches); then
`cacheDeletePattern('courses:*')` and `cacheDeletePattern('course:*')`.
-/
def updateCourse (st : CourseState) (courseId : Nat) (req : UpdateCourseReq) :
    CourseState × UpdateCourseResponse :=
  if req.name = none ∧ req.slug = none ∧ req.description = none ∧
      req.icon = none then
    (st, .badRequest "No fields provided to update")
  else
    match (st.courses.filter (fun c => c.id == courseId)).head? with
    | none => (st, .notFound)
    | some row =>
      let st' : CourseState :=
        { st with
            courses := st.courses.map (fun c =>
              if c.id = courseId then applyCourseUpdate req c else c)
            cache := cacheDropPattern "course:*"
              (cacheDropPattern "courses:*" st.cache) }
      (st', .updated (applyCourseUpdate req row))

end Courses

/--
C7: every cache operation is best-effort: whatever the client availability
and however the underlying redis calls behave (including throwing), the
helper returns normally — `cacheGet` with `null`, the others with unit —
and never propagates an error.
-/
theorem C7_cache_best_effort :
    (∀ (α : Type) (g : JsResult (Option String)) (p : String → JsResult α),
        Redis.cacheGet none g p = .ok none) ∧
    (∀ (α : Type) (c : Redis.Client) (e : String) (p : String → JsResult α),
        Redis.cacheGet (some c) (.thrown e) p = .ok none) ∧
    (∀ (α : Type) (c : Option Redis.Client) (g : JsResult (Option String))
        (p : String → JsResult α), ∃ v, Redis.cacheGet c g p = .ok v) ∧
    (∀ (c : Option Redis.Client) (r : JsResult Unit),
        Redis.cacheSet c r = .ok ()) ∧
    (∀ (c : Option Redis.Client) (r : JsResult Nat),
        Redis.cacheDelete c r = .ok ()) ∧
    (∀ (c : Option Redis.Client) (ks : JsResult (List String))
        (d : List String → JsResult Nat),
        Redis.cacheDeletePattern c ks d = .ok ()) := by
  refine ⟨?_, ?_, ?_, ?_, ?_, ?_⟩
  · intro α g p; rfl
  · intro α c e p; rfl
  · intro α c g p
    cases c with
    | none => exact ⟨none, rfl⟩
    | some c =>
      cases g with
      | thrown e => exact ⟨none, rfl⟩
      | ok data =>
        cases data with
        | none => exact ⟨none, rfl⟩
        | some s =>
          by_cases hs : s = ""
          · exact ⟨none, by simp [Redis.cacheGet, jsTryCatch, hs]⟩
          · cases hp : p s with
            | thrown e =>
              exact ⟨none, by simp [Redis.cacheGet, jsTryCatch, hs, hp]⟩
            | ok j =>
              exact ⟨some j, by simp [Redis.cacheGet, jsTryCatch, hs, hp]⟩
  · intro c r
    cases c with
    | none => rfl
    | some c =>
      cases r with
      | ok a => rfl
      | thrown e => rfl
  · intro c r
    cases c with
    | none => rfl
    | some c =>
      cases r with
      | ok n => rfl
      | thrown e => rfl
  · intro c ks d
    cases c with
    | none => rfl
    | some c =>
      cases ks with
      | thrown e => rfl
      | ok keys =>
        by_cases hk : keys.length > 0
        · cases hd : d keys with
          | thrown e => simp [Redis.cacheDeletePattern, jsTryCatch, hk, hd]
          | ok n => simp [Redis.cacheDeletePattern, jsTryCatch, hk, hd]
        · simp [Redis.cacheDeletePattern, jsTryCatch, hk]

/--
C4: code execution uses a 10-second timeout and terminal commands a
5-second timeout; the timeout handler sends SIGTERM, and on a SIGTERM-ed
child both `executeCode` and `executeCommand` resolve with `success:false`
and their timeout-specific message (not the generic failure text); every
outcome resolves, never rejects.
-/
theorem C4_timeout_behavior :
    Execute.codeTimeoutMs = 10000 ∧
    Execute.commandTimeoutMs = 5000 ∧
    Execute.timeoutKillSignal = "SIGTERM" ∧
    Execute.codeTimeoutMessage ≠ "Execution failed" ∧
    (∀ (code : Option Int) (msg stdout stderr : String),
        Execute.executeCodeSettle
            (.failed ⟨some Execute.timeoutKillSignal, code, msg⟩ stdout stderr) =
          .resolve ⟨false, "", Execute.codeTimeoutMessage, jsOrInt code 1⟩) ∧
    (∀ (code : Option Int) (msg stdout stderr : String),
        Execute.executeCommandSettle
            (.failed ⟨some Execute.timeoutKillSignal, code, msg⟩ stdout stderr) =
          .resolve ⟨false, "", "Command timeout"⟩) ∧
    (∀ o, ∃ r, Execute.executeCodeSettle o = .resolve r) ∧
    (∀ o, ∃ r, Execute.executeCommandSettle o = .resolve r) := by
  refine ⟨rfl, rfl, rfl, by decide, ?_, ?_, ?_, ?_⟩
  · intro code msg stdout stderr; rfl
  · intro code msg stdout stderr; rfl
  · intro o
    cases o with
    | completed s e => exact ⟨_, rfl⟩
    | failed err s e =>
      simp only [Execute.executeCodeSettle]
      split
      · exact ⟨_, rfl⟩
      · split
        · exact ⟨_, rfl⟩
        · exact ⟨_, rfl⟩
  · intro o
    cases o with
    | completed s e => exact ⟨_, rfl⟩
    | failed err s e =>
      simp only [Execute.executeCommandSettle]
      split
      · exact ⟨_, rfl⟩
      · exact ⟨_, rfl⟩

/--
C3 counterexample: the claim says every request whose first token is not in
the allow-list is rejected without spawning a process, but a command
starting with `"cd "` is passed to `executeCommand` (which spawns it via
`exec`) even though its first token `"cd"` is not in the allow-list.
-/
theorem C3_counterexample :
    Execute.handleCommand "cd /etc" none = .spawn "cd /etc" ∧
    Execute.baseCommandOf "cd /etc" = "cd" ∧
    (Execute.allowedCommands none).contains "cd" = false := by
  refine ⟨rfl, rfl, by decide⟩

/--
C3 amended: for every POST /api/execute/command request whose first
whitespace-separated token is not in the allow-list for the request's
language AND whose command does not start with `"cd "`, the handler
responds `success:false` with the "not allowed" message and never reaches
the child-process spawn.
-/
theorem C3_command_allow_list (command : String) (language : Option String)
    (hne : command ≠ "")
    (hbase : (Execute.allowedCommands language).contains
      (Execute.baseCommandOf command) = false)
    (hcd : jsStartsWith command "cd " = false) :
    Execute.handleCommand command language =
      .respond
        { success := false
          output := ""
          error := Execute.notAllowedMessage (Execute.baseCommandOf command)
            (Execute.allowedCommands language) } ∧
    ∀ c, Execute.handleCommand command language ≠ .spawn c := by
  have h : Execute.handleCommand command language =
      Execute.CommandAction.respond
        { success := false
          output := ""
          error := Execute.notAllowedMessage (Execute.baseCommandOf command)
            (Execute.allowedCommands language) } := by
    unfold Execute.handleCommand
    rw [if_neg hne, if_pos]
    constructor
    · simpa using hbase
    · simp [hcd]
  exact ⟨h, fun c hc => by rw [h] at hc; exact Execute.CommandAction.noConfusion hc⟩

/-- C3 witness: `rm -rf /x` is rejected for a request without a language. -/
theorem C3_witness :
    Execute.handleCommand "rm -rf /x" none =
      .respond
        { success := false
          output := ""
          error := Execute.notAllowedMessage (Execute.baseCommandOf "rm -rf /x")
            (Execute.allowedCommands none) } ∧
    ∀ c, Execute.handleCommand "rm -rf /x" none ≠ .spawn c :=
  C3_command_allow_list "rm -rf /x" none (by decide) (by decide) (by decide)

/--
C8: a registration whose email or username matches an existing user fails
with 400 "User already exists" and leaves the `users` table untouched (the
returned state is the input state).
-/
theorem C8_register_duplicate (hash : String → String) (st : Auth.AuthState)
    (username email password : String)
    (hu : username ≠ "") (he : email ≠ "") (hp : password ≠ "")
    (hex : ∃ u ∈ st.users, u.email = email ∨ u.username = username) :
    Auth.register hash st username email password =
      (st, .badRequest "User already exists") := by
  unfold Auth.register
  rw [if_neg (by simp [hu, he, hp]), if_pos]
  obtain ⟨u, hmem, hor⟩ := hex
  rw [List.any_eq_true]
  refine ⟨u, hmem, ?_⟩
  rcases hor with h | h <;> simp [h]

/-- Example user table for the C8 witness. -/
def C8exState : Auth.AuthState :=
  { users := [{ id := 1, username := "alice", email := "alice@example.com",
                password_hash := "h", currency := 0, total_points := 0 }],
    nextId := 2 }

/-- C8 witness: re-registering with an existing email is rejected and the
table is unchanged. -/
theorem C8_witness :
    Auth.register (fun p => p) C8exState "bob" "alice@example.com" "pw" =
      (C8exState, .badRequest "User already exists") :=
  C8_register_duplicate (fun p => p) C8exState "bob" "alice@example.com" "pw"
    (by decide) (by decide) (by decide) (by decide)

/-- Leaderboard example: total 20, streak 0 — combined score 20. -/
def C6userA : App.User :=
  { id := 1, username := "alice", total_points := 20, currency := 0,
    current_streak := 0, longest_streak := 0, last_activity_date := none }

/-- Leaderboard example: total 10, streak 1 — combined score 20. -/
def C6userB : App.User :=
  { id := 2, username := "bob", total_points := 10, currency := 0,
    current_streak := 1, longest_streak := 1, last_activity_date := none }

/--
C6 counterexample: the type=all leaderboard query is `ORDER BY score DESC`
with no tiebreaker, so for the two-user table `[A, B]` with equal scores
the reversed output `[B, A]` is a valid query result, violating the claim
that equal-score users keep their insertion order.
-/
theorem C6_counterexample :
    Leaderboard.ValidLeaderboardAll 100 [C6userA, C6userB] [C6userB, C6userA] ∧
    Leaderboard.scoreAll C6userA = Leaderboard.scoreAll C6userB ∧
    C6userA ≠ C6userB := by
  refine ⟨⟨[C6userB, C6userA], List.Perm.swap _ _ _,
    by unfold Leaderboard.SortedDescBy; decide, rfl⟩, by decide, by decide⟩

/--
C6 amended: every valid type=all leaderboard result is ordered by
`total_points + current_streak * 10` descending and draws its rows from
the users table; the relative order of equal-score users is not
guaranteed.
-/
theorem C6_leaderboard_sorted (limit : Nat) (users out : List App.User)
    (h : Leaderboard.ValidLeaderboardAll limit users out) :
    Leaderboard.SortedDescBy Leaderboard.scoreAll out ∧
    ∀ u ∈ out, u ∈ users := by
  obtain ⟨s, hperm, hsort, rfl⟩ := h
  refine ⟨List.Pairwise.sublist (List.take_sublist _ _) hsort, ?_⟩
  intro u hu
  exact hperm.subset (List.take_subset _ _ hu)

/-- C6 witness: the amended theorem applied to the two-user example. -/
theorem C6_witness :
    Leaderboard.SortedDescBy Leaderboard.scoreAll [C6userB, C6userA] ∧
    ∀ u ∈ [C6userB, C6userA], u ∈ [C6userA, C6userB] :=
  C6_leaderboard_sorted 100 [C6userA, C6userB] [C6userB, C6userA]
    ⟨[C6userB, C6userA], List.Perm.swap _ _ _,
      by unfold Leaderboard.SortedDescBy; decide, rfl⟩

namespace App

/-- `find?` commutes with a map that preserves the predicate. -/
theorem find?_map_pred {α : Type} (l : List α) (p : α → Bool) (f : α → α)
    (hf : ∀ a, p (f a) = p a) : (l.map f).find? p = (l.find? p).map f := by
  induction l with
  | nil => rfl
  | cons a t ih =>
    cases h : p a with
    | true =>
      rw [List.map_cons, List.find?_cons_of_pos _ (by rw [hf]; exact h),
        List.find?_cons_of_pos _ h]
      rfl
    | false =>
      rw [List.map_cons, List.find?_cons_of_neg _ (by simp [hf, h]),
        List.find?_cons_of_neg _ (by simp [h])]
      exact ih

/-- `find?` over an append whose first part has no match. -/
theorem find?_append_none {α : Type} {l : List α} (l' : List α) {p : α → Bool}
    (h : l.find? p = none) : (l ++ l').find? p = l'.find? p := by
  induction l with
  | nil => rfl
  | cons a t ih =>
    cases hp : p a with
    | true => rw [List.find?_cons_of_pos _ hp] at h; exact absurd h (by simp)
    | false =>
      rw [List.find?_cons_of_neg _ (by simp [hp])] at h
      rw [List.cons_append, List.find?_cons_of_neg _ (by simp [hp])]
      exact ih h

/-- An id-preserving user update commutes with `find?` by id. -/
theorem find?_id_map (users : List User) (uid : Nat) (f : User → User)
    (hf : ∀ v, (f v).id = v.id) :
    (users.map f).find? (fun u => u.id == uid)
      = (users.find? (fun u => u.id == uid)).map f :=
  find?_map_pred users _ f (fun a => by simp [hf])

/-- `updateStreak` writes only the `users` table. -/
theorem updateStreak_tables (t : Int) (uid : Nat) (st : AppState) :
    (updateStreak t uid st).userProgress = st.userProgress ∧
    (updateStreak t uid st).lessonProgress = st.lessonProgress ∧
    (updateStreak t uid st).dailyActivity = st.dailyActivity ∧
    (updateStreak t uid st).cache = st.cache := by
  unfold updateStreak
  cases st.users.find? (fun u => u.id == uid) with
  | none => exact ⟨rfl, rfl, rfl, rfl⟩
  | some user =>
    by_cases h : user.last_activity_date = some t <;>
      simp [h]

/-- `updateDailyActivity` writes only the `daily_activity` table. -/
theorem updateDailyActivity_tables (t : Int) (uid : Nat) (p c : Int)
    (st : AppState) :
    (updateDailyActivity t uid p c st).users = st.users ∧
    (updateDailyActivity t uid p c st).userProgress = st.userProgress ∧
    (updateDailyActivity t uid p c st).lessonProgress = st.lessonProgress ∧
    (updateDailyActivity t uid p c st).cache = st.cache := by
  unfold updateDailyActivity
  by_cases h : st.dailyActivity.any
      (fun r => r.user_id == uid && r.activity_date == t) <;>
    simp [h]

/-- What `updateStreak` does to the row `SELECT ... WHERE id` found. -/
theorem updateStreak_getUser (t : Int) (uid : Nat) (st : AppState) (u : User)
    (hu : getUser st uid = some u) :
    getUser (updateStreak t uid st) uid = some (streakResult t u) := by
  have hu' : st.users.find? (fun v => v.id == uid) = some u := hu
  have hid : u.id = uid := by
    have := List.find?_some hu'
    simpa using this
  unfold updateStreak
  rw [hu']
  dsimp only
  by_cases h : u.last_activity_date = some t
  · rw [if_pos h]
    unfold streakResult
    rw [if_pos h]
    exact hu
  · rw [if_neg h]
    unfold getUser
    dsimp only
    refine Eq.trans (find?_id_map st.users uid _ ?_) ?_
    · intro v
      by_cases hv : v.id = uid <;> simp [hv]
    · rw [hu']
      dsimp only [Option.map]
      rw [if_pos hid]
      unfold streakResult
      rw [if_neg h]

/-- `streakResult` never touches the points totals. -/
theorem streakResult_totals (t : Int) (u : User) :
    (streakResult t u).total_points = u.total_points ∧
    (streakResult t u).currency = u.currency ∧
    (streakResult t u).id = u.id := by
  unfold streakResult
  by_cases h : u.last_activity_date = some t <;> simp [h]

end App

namespace App

/-- `lessonUpsert` writes only the `lesson_progress` table. -/
theorem lessonUpsert_rest (t : Int) (uid lid : Nat) (pp : Int) (ic : Bool)
    (p : Int) (st : AppState) :
    (lessonUpsert t uid lid pp ic p st).users = st.users ∧
    (lessonUpsert t uid lid pp ic p st).userProgress = st.userProgress ∧
    (lessonUpsert t uid lid pp ic p st).dailyActivity = st.dailyActivity ∧
    (lessonUpsert t uid lid pp ic p st).cache = st.cache := by
  unfold lessonUpsert
  split <;> exact ⟨rfl, rfl, rfl, rfl⟩

/-- `topicUpsert` writes only the `user_progress` table. -/
theorem topicUpsert_rest (t : Int) (uid : Nat) (topic : String) (pp : Int)
    (ic : Bool) (p : Int) (st : AppState) :
    (topicUpsert t uid topic pp ic p st).users = st.users ∧
    (topicUpsert t uid topic pp ic p st).lessonProgress = st.lessonProgress ∧
    (topicUpsert t uid topic pp ic p st).dailyActivity = st.dailyActivity ∧
    (topicUpsert t uid topic pp ic p st).cache = st.cache := by
  unfold topicUpsert
  split <;> exact ⟨rfl, rfl, rfl, rfl⟩

/-- `getUser` only reads the `users` table. -/
theorem getUser_congr {st st' : AppState} (h : st'.users = st.users)
    (uid : Nat) : getUser st' uid = getUser st uid := by
  unfold getUser; rw [h]

/-- `getLessonRow` only reads the `lesson_progress` table. -/
theorem getLessonRow_congr {st st' : AppState}
    (h : st'.lessonProgress = st.lessonProgress) (uid lid : Nat) :
    getLessonRow st' uid lid = getLessonRow st uid lid := by
  unfold getLessonRow; rw [h]

/-- Effect of the points UPDATE on the queried user row. -/
theorem addPoints_getUser (uid : Nat) (p : Int) (st : AppState) (u : User)
    (hu : getUser st uid = some u) :
    getUser (addPoints uid p st) uid =
      some { u with total_points := u.total_points + p
                    currency := u.currency + p } := by
  have hu' : st.users.find? (fun v => v.id == uid) = some u := hu
  have hid : u.id = uid := by simpa using List.find?_some hu'
  unfold addPoints getUser
  dsimp only
  refine Eq.trans (find?_id_map st.users uid _ ?_) ?_
  · intro v; by_cases hv : v.id = uid <;> simp [hv]
  · rw [hu']
    dsimp only [Option.map]
    rw [if_pos hid]

/-- After the upsert, the queried `lesson_progress` row holds exactly the
request's values (both the UPDATE and the INSERT branch fully overwrite
the row). -/
theorem lessonUpsert_getLessonRow (t : Int) (uid lid : Nat) (pp : Int)
    (ic : Bool) (p : Int) (st : AppState) :
    getLessonRow (lessonUpsert t uid lid pp ic p st) uid lid =
      some { user_id := uid, lesson_id := lid, progress_percentage := pp,
             completed := ic, points_earned := p,
             completed_at := if ic then some t else none } := by
  unfold lessonUpsert getLessonRow
  by_cases hex : st.lessonProgress.any
      (fun r => r.user_id == uid && r.lesson_id == lid) = true
  · rw [if_pos hex]
    dsimp only
    refine Eq.trans
      (find?_map_pred st.lessonProgress _ _ (fun r => ?_)) ?_
    · by_cases hk : r.user_id = uid ∧ r.lesson_id = lid
      · simp [hk, hk.1, hk.2]
      · simp [hk]
    · obtain ⟨r0, hmem, hp⟩ := List.any_eq_true.mp hex
      cases hf : st.lessonProgress.find?
          (fun r => r.user_id == uid && r.lesson_id == lid) with
      | none => exact absurd hp (by simpa using List.find?_eq_none.mp hf _ hmem)
      | some r1 =>
        have hk : r1.user_id = uid ∧ r1.lesson_id = lid := by
          have := List.find?_some hf
          constructor <;> [skip; skip] <;>
            · simp only [Bool.and_eq_true, beq_iff_eq] at this
              first
                | exact this.1
                | exact this.2
        dsimp only [Option.map]
        rw [if_pos hk]
        simp [hk.1, hk.2]
  · rw [if_neg hex]
    dsimp only
    rw [find?_append_none]
    · rw [List.find?_cons_of_pos _ (by simp)]
    · refine List.find?_eq_none.mpr (fun r hmem => ?_)
      simp only [Bool.not_eq_true] at hex ⊢
      have := List.any_eq_false.mp hex r hmem
      simpa using this

end App

namespace App

/-- `updateStreak` keeps `lesson_progress`. -/
theorem updateStreak_lessonProgress (t : Int) (uid : Nat) (st : AppState) :
    (updateStreak t uid st).lessonProgress = st.lessonProgress :=
  (updateStreak_tables t uid st).2.1

/-- `updateStreak` keeps `user_progress`. -/
theorem updateStreak_userProgress (t : Int) (uid : Nat) (st : AppState) :
    (updateStreak t uid st).userProgress = st.userProgress :=
  (updateStreak_tables t uid st).1

/-- `updateDailyActivity` keeps `users`. -/
theorem updateDailyActivity_users (t : Int) (uid : Nat) (p c : Int)
    (st : AppState) : (updateDailyActivity t uid p c st).users = st.users :=
  (updateDailyActivity_tables t uid p c st).1

/-- `updateDailyActivity` keeps `user_progress`. -/
theorem updateDailyActivity_userProgress (t : Int) (uid : Nat) (p c : Int)
    (st : AppState) :
    (updateDailyActivity t uid p c st).userProgress = st.userProgress :=
  (updateDailyActivity_tables t uid p c st).2.1

/-- `updateDailyActivity` keeps `lesson_progress`. -/
theorem updateDailyActivity_lessonProgress (t : Int) (uid : Nat) (p c : Int)
    (st : AppState) :
    (updateDailyActivity t uid p c st).lessonProgress = st.lessonProgress :=
  (updateDailyActivity_tables t uid p c st).2.2.1

/--
Behavior of the lesson-progress handler on a completing request (body flag
set, or `progress_percentage = 100`): the stored row is fully overwritten
with `completed = true` and `points_earned = 10`, the user's totals grow by
10, the user row then goes through the streak update, and the response
reports 10 points.
-/
theorem updateLessonProgress_completed (today : Int) (uid lessonId : Nat)
    (pp : Int) (completed : Bool) (st : AppState) (u : User)
    (hu : getUser st uid = some u)
    (hic : (completed || pp == 100) = true) :
    getLessonRow (updateLessonProgress today uid lessonId (some pp) completed st).1
        uid lessonId =
      some { user_id := uid, lesson_id := lessonId, progress_percentage := pp,
             completed := true, points_earned := 10,
             completed_at := some today } ∧
    getUser (updateLessonProgress today uid lessonId (some pp) completed st).1 uid
      = some (streakResult today
          { u with total_points := u.total_points + 10
                   currency := u.currency + 10 }) ∧
    (updateLessonProgress today uid lessonId (some pp) completed st).2 =
      .updated 10 := by
  unfold updateLessonProgress
  dsimp only
  rw [hic]
  norm_num
  set st1 := lessonUpsert today uid lessonId pp true 10 st with hst1
  set st2 := addPoints uid 10 st1 with hst2
  set st3 := updateStreak today uid st2 with hst3
  set st4 := updateDailyActivity today uid 10 1 st3 with hst4
  have hrow : getLessonRow (clearUserCache uid st4) uid lessonId =
      some { user_id := uid, lesson_id := lessonId, progress_percentage := pp,
             completed := true, points_earned := 10,
             completed_at := some today } := by
    rw [getLessonRow_congr
        (show (clearUserCache uid st4).lessonProgress = st4.lessonProgress from rfl),
      getLessonRow_congr (updateDailyActivity_lessonProgress _ _ _ _ _),
      getLessonRow_congr (updateStreak_lessonProgress _ _ _),
      getLessonRow_congr
        (show (addPoints uid 10 st1).lessonProgress = st1.lessonProgress from rfl)]
    simpa using lessonUpsert_getLessonRow today uid lessonId pp true 10 st
  have hu1 : getUser st1 uid = some u := by
    rw [getUser_congr (lessonUpsert_rest today uid lessonId pp true 10 st).1]
    exact hu
  have hu2 : getUser st2 uid =
      some { u with total_points := u.total_points + 10
                    currency := u.currency + 10 } :=
    addPoints_getUser uid 10 st1 u hu1
  have hu3 : getUser st3 uid = some (streakResult today
      { u with total_points := u.total_points + 10
               currency := u.currency + 10 }) :=
    updateStreak_getUser today uid st2 _ hu2
  have huser : getUser (clearUserCache uid st4) uid = some (streakResult today
      { u with total_points := u.total_points + 10
               currency := u.currency + 10 }) := by
    rw [getUser_congr
        (show (clearUserCache uid st4).users = st4.users from rfl),
      getUser_congr (updateDailyActivity_users _ _ _ _ _)]
    exact hu3
  exact ⟨hrow, huser⟩

end App

namespace App

/-- Streak already updated today: the early `return` leaves it unchanged. -/
theorem streakResult_current_today (t : Int) (u : User)
    (h : u.last_activity_date = some t) :
    (streakResult t u).current_streak = u.current_streak := by
  unfold streakResult; rw [if_pos h]

/-- Last activity yesterday: the streak is incremented by exactly 1. -/
theorem streakResult_current_yesterday (t : Int) (u : User)
    (h : u.last_activity_date = some (t - 1)) :
    (streakResult t u).current_streak = u.current_streak + 1 := by
  unfold streakResult
  rw [if_neg (by rw [h]; intro hc; rw [Option.some_inj] at hc; omega)]
  dsimp only
  rw [if_pos h]

/-- Last activity absent or older than yesterday: the streak resets to 1. -/
theorem streakResult_current_reset (t : Int) (u : User)
    (h : u.last_activity_date = none ∨
      ∃ d, u.last_activity_date = some d ∧ d < t - 1) :
    (streakResult t u).current_streak = 1 := by
  unfold streakResult
  rcases h with h | ⟨d, hd, hlt⟩
  · rw [if_neg (by simp [h])]
    dsimp only
    rw [if_neg (by simp [h]), if_pos (by rw [h])]
  · rw [if_neg (by rw [hd]; intro hc; rw [Option.some_inj] at hc; omega)]
    dsimp only
    rw [if_neg (by rw [hd]; intro hc; rw [Option.some_inj] at hc; omega),
      if_pos (by rw [hd]; simpa using hlt)]

end App

/-- Fresh example user for the progress claims. -/
def C1exUser : App.User :=
  { id := 1, username := "alice", total_points := 0, currency := 0,
    current_streak := 0, longest_streak := 0, last_activity_date := none }

/-- Example state: one fresh user, empty progress tables. -/
def C1exState : App.AppState :=
  { users := [C1exUser], userProgress := [], lessonProgress := [],
    dailyActivity := [], cache := [] }

/--
C1 counterexample: submitting `progress_percentage = 100` twice for the
same lesson awards the 10 completion points twice (the handler never checks
the previously stored `completed` flag), so the user ends at 20 points
while the lesson row records a single 10-point award.
-/
theorem C1_counterexample :
    (App.getUser (App.applyOps 100 C1exState
        [.lessonOp 1 5 (some 100) false, .lessonOp 1 5 (some 100) false]) 1).map
      (fun u => u.total_points) = some 20 ∧
    App.lessonPointsOf (App.applyOps 100 C1exState
        [.lessonOp 1 5 (some 100) false, .lessonOp 1 5 (some 100) false]).lessonProgress
      1 = 10 := by
  constructor <;> decide

/--
C1 amended: a request with `progress_percentage = 100` stores the row with
`completed = true` and `points_earned = 10`, adds the 10 completion points
to the user's totals on every such submission (a repeated submission for
an already-completed lesson adds them again), and updates `current_streak`
exactly as claimed: +1 if the last activity was yesterday, reset to 1 if
absent or older than yesterday, unchanged if already today.
-/
theorem C1_lesson_completion (today : Int) (uid lessonId : Nat)
    (completed : Bool) (st : App.AppState) (u : App.User)
    (hu : App.getUser st uid = some u) :
    App.getLessonRow
        (App.updateLessonProgress today uid lessonId (some 100) completed st).1
        uid lessonId =
      some { user_id := uid, lesson_id := lessonId, progress_percentage := 100,
             completed := true, points_earned := 10,
             completed_at := some today } ∧
    (∃ u',
      App.getUser
          (App.updateLessonProgress today uid lessonId (some 100) completed st).1
          uid = some u' ∧
      u'.total_points = u.total_points + 10 ∧
      u'.currency = u.currency + 10 ∧
      (u.last_activity_date = some today →
        u'.current_streak = u.current_streak) ∧
      (u.last_activity_date = some (today - 1) →
        u'.current_streak = u.current_streak + 1) ∧
      ((u.last_activity_date = none ∨
          ∃ d, u.last_activity_date = some d ∧ d < today - 1) →
        u'.current_streak = 1)) ∧
    (App.updateLessonProgress today uid lessonId (some 100) completed st).2 =
      .updated 10 := by
  obtain ⟨hrow, huser, hresp⟩ :=
    App.updateLessonProgress_completed today uid lessonId 100 completed st u hu
      (by simp)
  refine ⟨hrow, ⟨_, huser, ?_, ?_, ?_, ?_, ?_⟩, hresp⟩
  · exact (App.streakResult_totals today _).1
  · exact (App.streakResult_totals today _).2.1
  · intro h
    exact App.streakResult_current_today today _ h
  · intro h
    exact App.streakResult_current_yesterday today _ h
  · intro h
    exact App.streakResult_current_reset today _ h

/-- C1 witness: the amended theorem applied to the fresh example user. -/
theorem C1_witness :
    App.getLessonRow
        (App.updateLessonProgress 100 1 5 (some 100) false C1exState).1 1 5 =
      some { user_id := 1, lesson_id := 5, progress_percentage := 100,
             completed := true, points_earned := 10, completed_at := some 100 } ∧
    (∃ u',
      App.getUser (App.updateLessonProgress 100 1 5 (some 100) false C1exState).1 1
        = some u' ∧
      u'.total_points = C1exUser.total_points + 10 ∧
      u'.currency = C1exUser.currency + 10 ∧
      (C1exUser.last_activity_date = some 100 →
        u'.current_streak = C1exUser.current_streak) ∧
      (C1exUser.last_activity_date = some (100 - 1) →
        u'.current_streak = C1exUser.current_streak + 1) ∧
      ((C1exUser.last_activity_date = none ∨
          ∃ d, C1exUser.last_activity_date = some d ∧ d < 100 - 1) →
        u'.current_streak = 1)) ∧
    (App.updateLessonProgress 100 1 5 (some 100) false C1exState).2 =
      .updated 10 :=
  C1_lesson_completion 100 1 5 false C1exState C1exUser rfl

/--
C10: a request body with `completed = true` marks the lesson completed and
awards the 10 points even when `progress_percentage` is below 100 —
completion is `completed || progress_percentage === 100`, not the
percentage test alone.
-/
theorem C10_completed_flag (today : Int) (uid lessonId : Nat) (pp : Int)
    (st : App.AppState) (u : App.User)
    (hu : App.getUser st uid = some u) (hpp : pp < 100) :
    App.getLessonRow
        (App.updateLessonProgress today uid lessonId (some pp) true st).1
        uid lessonId =
      some { user_id := uid, lesson_id := lessonId, progress_percentage := pp,
             completed := true, points_earned := 10,
             completed_at := some today } ∧
    (∃ u',
      App.getUser
          (App.updateLessonProgress today uid lessonId (some pp) true st).1 uid
        = some u' ∧
      u'.total_points = u.total_points + 10 ∧
      u'.currency = u.currency + 10) ∧
    (App.updateLessonProgress today uid lessonId (some pp) true st).2 =
      .updated 10 := by
  obtain ⟨hrow, huser, hresp⟩ :=
    App.updateLessonProgress_completed today uid lessonId pp true st u hu rfl
  exact ⟨hrow, ⟨_, huser, (App.streakResult_totals today _).1,
    (App.streakResult_totals today _).2.1⟩, hresp⟩

/-- C10 witness: `completed = true` with 50 percent still completes. -/
theorem C10_witness :
    App.getLessonRow
        (App.updateLessonProgress 100 1 5 (some 50) true C1exState).1 1 5 =
      some { user_id := 1, lesson_id := 5, progress_percentage := 50,
             completed := true, points_earned := 10, completed_at := some 100 } ∧
    (∃ u',
      App.getUser (App.updateLessonProgress 100 1 5 (some 50) true C1exState).1 1
        = some u' ∧
      u'.total_points = C1exUser.total_points + 10 ∧
      u'.currency = C1exUser.currency + 10) ∧
    (App.updateLessonProgress 100 1 5 (some 50) true C1exState).2 =
      .updated 10 :=
  C10_completed_flag 100 1 5 50 C1exState C1exUser rfl (by decide)

namespace App

/-- `clearUserCache` leaves the `users` table unchanged. -/
theorem clearUserCache_users (uid : Nat) (st : AppState) :
    (clearUserCache uid st).users = st.users := rfl

/-- The streak invariant only reads the `users` table. -/
theorem streakInv_congr {st st' : AppState} (h : st'.users = st.users)
    (hinv : StreakInv st) : StreakInv st' := by
  intro u hu
  rw [h] at hu
  exact hinv u hu

/-- `Math.max(newStreak, longest)` keeps the longest streak an upper bound
of the current streak and never decreases it. -/
theorem streakResult_longest (t : Int) (u : User)
    (h : u.current_streak ≤ u.longest_streak) :
    (streakResult t u).longest_streak =
      max u.longest_streak (streakResult t u).current_streak ∧
    (streakResult t u).current_streak ≤ (streakResult t u).longest_streak ∧
    u.longest_streak ≤ (streakResult t u).longest_streak := by
  unfold streakResult
  by_cases hd : u.last_activity_date = some t
  · rw [if_pos hd]
    exact ⟨(max_eq_left h).symm, h, le_refl _⟩
  · rw [if_neg hd]
    exact ⟨max_comm _ _, le_max_left _ _, le_max_right _ _⟩

/-- `updateStreak` preserves the streak invariant for every user row. -/
theorem updateStreak_streakInv (t : Int) (uid : Nat) (st : AppState)
    (h : StreakInv st) : StreakInv (updateStreak t uid st) := by
  intro u' hu'
  unfold updateStreak at hu'
  cases hf : st.users.find? (fun v => v.id == uid) with
  | none => rw [hf] at hu'; exact h u' hu'
  | some user =>
    rw [hf] at hu'
    dsimp only at hu'
    by_cases hd : user.last_activity_date = some t
    · rw [if_pos hd] at hu'
      exact h u' hu'
    · rw [if_neg hd] at hu'
      dsimp only at hu'
      obtain ⟨v, hv, rfl⟩ := List.mem_map.mp hu'
      by_cases hv' : v.id = uid
      · rw [if_pos hv']
        exact le_max_left _ _
      · rw [if_neg hv']
        exact h v hv
 
/-- The points UPDATE touches no streak column. -/
theorem addPoints_streakInv (uid : Nat) (p : Int) (st : AppState)
    (h : StreakInv st) : StreakInv (addPoints uid p st) := by
  intro u' hu'
  unfold addPoints at hu'
  dsimp only at hu'
  obtain ⟨v, hv, rfl⟩ := List.mem_map.mp hu'
  by_cases hv' : v.id = uid
  · rw [if_pos hv']
    exact h v hv
  · rw [if_neg hv']
    exact h v hv

/-- The topic-progress handler preserves the streak invariant. -/
theorem updateTopicProgress_streakInv (t : Int) (uid : Nat) (topic : String)
    (pp : Option Int) (pe : Option Int) (st : AppState)
    (h : StreakInv st) :
    StreakInv (updateTopicProgress t uid topic pp pe st).1 := by
  unfold updateTopicProgress
  by_cases hbad : topic = "" ∨ pp = none
  · rw [if_pos hbad]; exact h
  · rw [if_neg hbad]
    cases pp with
    | none => exact h
    | some p =>
      dsimp only
      generalize jsOrInt pe (if (p == 100) = true then 10 else 0) = q
      have h1 : StreakInv (topicUpsert t uid topic p (p == 100) q st) :=
        streakInv_congr (topicUpsert_rest _ _ _ _ _ _ _).1 h
      have h2 : StreakInv
          (if 0 < q then
            addPoints uid q (topicUpsert t uid topic p (p == 100) q st)
          else topicUpsert t uid topic p (p == 100) q st) := by
        split
        · exact addPoints_streakInv _ _ _ h1
        · exact h1
      have h3 := updateStreak_streakInv t uid _ h2
      apply streakInv_congr (clearUserCache_users _ _)
      apply streakInv_congr (updateDailyActivity_users t uid _ _ _)
      exact h3

/-- The lesson-progress handler preserves the streak invariant. -/
theorem updateLessonProgress_streakInv (t : Int) (uid lid : Nat)
    (pp : Option Int) (completed : Bool) (st : AppState)
    (h : StreakInv st) :
    StreakInv (updateLessonProgress t uid lid pp completed st).1 := by
  unfold updateLessonProgress
  cases pp with
  | none => exact h
  | some p =>
    dsimp only
    generalize (if (completed || p == 100) = true then (10:Int) else 0) = q
    have h1 : StreakInv
        (lessonUpsert t uid lid p (completed || p == 100) q st) :=
      streakInv_congr (lessonUpsert_rest _ _ _ _ _ _ _).1 h
    have h2 : StreakInv
        (if 0 < q ∧ (completed || p == 100) = true then
          addPoints uid q (lessonUpsert t uid lid p (completed || p == 100) q st)
        else lessonUpsert t uid lid p (completed || p == 100) q st) := by
      split
      · exact addPoints_streakInv _ _ _ h1
      · exact h1
    have h3 := updateStreak_streakInv t uid _ h2
    apply streakInv_congr (clearUserCache_users _ _)
    apply streakInv_congr (updateDailyActivity_users t uid _ _ _)
    exact h3

end App

/--
C9: `updateStreak` sets the queried user's `longest_streak` to the maximum
of its previous value and the new `current_streak` (given the invariant
held before), so `current_streak <= longest_streak` is preserved and
`longest_streak` never decreases; moreover both progress-update operations
preserve the invariant for every user row.
-/
theorem C9_longest_streak (today : Int) (uid : Nat) (st : App.AppState)
    (u : App.User) (hu : App.getUser st uid = some u)
    (hinv : u.current_streak ≤ u.longest_streak) :
    (∃ u', App.getUser (App.updateStreak today uid st) uid = some u' ∧
      u'.longest_streak = max u.longest_streak u'.current_streak ∧
      u'.current_streak ≤ u'.longest_streak ∧
      u.longest_streak ≤ u'.longest_streak) ∧
    (∀ (op : App.POp) (st₂ : App.AppState), App.StreakInv st₂ →
      App.StreakInv (App.applyOp today st₂ op)) := by
  constructor
  · refine ⟨App.streakResult today u, App.updateStreak_getUser today uid st u hu,
      ?_, ?_, ?_⟩
    · exact (App.streakResult_longest today u hinv).1
    · exact (App.streakResult_longest today u hinv).2.1
    · exact (App.streakResult_longest today u hinv).2.2
  · intro op st₂ h
    cases op with
    | topicOp u' t' pp pe => exact App.updateTopicProgress_streakInv _ _ _ _ _ _ h
    | lessonOp u' l' pp c => exact App.updateLessonProgress_streakInv _ _ _ _ _ _ h

/-- C9 witness: applied to a user with streak 3 of 5 who was last active
yesterday. -/
theorem C9_witness :
    (∃ u', App.getUser (App.updateStreak 100 1
        { users := [{ id := 1, username := "alice", total_points := 0,
                      currency := 0, current_streak := 3, longest_streak := 5,
                      last_activity_date := some 99 }],
          userProgress := [], lessonProgress := [], dailyActivity := [],
          cache := [] }) 1 = some u' ∧
      u'.longest_streak = max 5 u'.current_streak ∧
      u'.current_streak ≤ u'.longest_streak ∧
      (5:Int) ≤ u'.longest_streak) ∧
    (∀ (op : App.POp) (st₂ : App.AppState), App.StreakInv st₂ →
      App.StreakInv (App.applyOp 100 st₂ op)) :=
  C9_longest_streak 100 1
    { users := [{ id := 1, username := "alice", total_points := 0,
                  currency := 0, current_streak := 3, longest_streak := 5,
                  last_activity_date := some 99 }],
      userProgress := [], lessonProgress := [], dailyActivity := [],
      cache := [] }
    { id := 1, username := "alice", total_points := 0, currency := 0,
      current_streak := 3, longest_streak := 5, last_activity_date := some 99 }
    rfl (by decide)

namespace Courses

/-- After a pattern delete, no key matching the pattern survives. -/
theorem cacheLookup_drop_of_match (pat k : String)
    (c : List (String × CachedJson)) (h : globMatch pat k = true) :
    cacheLookup (cacheDropPattern pat c) k = none := by
  unfold cacheLookup cacheDropPattern
  rw [Option.map_eq_none']
  refine List.find?_eq_none.mpr (fun kv hkv => ?_)
  have h2 := (List.mem_filter.mp hkv).2
  simp only [decide_eq_true_eq] at h2
  intro hbeq
  have hk : kv.1 = k := by simpa using hbeq
  exact h2 (by rw [hk]; exact h)

/-- A pattern delete introduces no new keys. -/
theorem cacheLookup_drop_of_none (pat k : String)
    (c : List (String × CachedJson)) (h : cacheLookup c k = none) :
    cacheLookup (cacheDropPattern pat c) k = none := by
  unfold cacheLookup at h ⊢
  rw [Option.map_eq_none'] at h ⊢
  refine List.find?_eq_none.mpr (fun kv hkv => ?_)
  exact List.find?_eq_none.mp h kv (List.mem_filter.mp hkv).1

/-- Redis SET makes the key readable. -/
theorem cacheLookup_store (k : String) (v : CachedJson)
    (c : List (String × CachedJson)) :
    cacheLookup (cacheStore k v c) k = some v := by
  unfold cacheLookup cacheStore
  rw [List.find?_cons_of_pos _ (by simp)]
  rfl

end Courses

/--
C5: after PUT /api/admin/courses/:courseId succeeds, the stale `courses:all`
cache entry is gone (the `courses:*` prefix delete matches it), so the next
GET /api/courses computes its response from the database — which contains
the updated course — and repopulates the cache with that fresh list.
-/
theorem C5_cache_invalidation (st : Courses.CourseState) (courseId : Nat)
    (req : Courses.UpdateCourseReq) (uid : Option Nat)
    (st' : Courses.CourseState) (course : Courses.Course)
    (h : Courses.updateCourse st courseId req = (st', .updated course)) :
    Courses.cacheLookup st'.cache "courses:all" = none ∧
    (Courses.getCourses st' uid).1 =
      .courseList (Courses.coursesFromDb st' uid) ∧
    Courses.cacheLookup (Courses.getCourses st' uid).2.cache "courses:all" =
      some (.courseList (Courses.coursesFromDb st' uid)) ∧
    (∃ co ∈ Courses.coursesFromDb st' uid, co.course = course) := by
  unfold Courses.updateCourse at h
  by_cases hbad : req.name = none ∧ req.slug = none ∧ req.description = none ∧
      req.icon = none
  · rw [if_pos hbad] at h
    rw [Prod.mk.injEq] at h
    exact absurd h.2 (by simp)
  · rw [if_neg hbad] at h
    cases hm : (st.courses.filter (fun c => c.id == courseId)).head? with
    | none =>
      rw [hm] at h
      rw [Prod.mk.injEq] at h
      exact absurd h.2 (by simp)
    | some row =>
      rw [hm] at h
      rw [Prod.mk.injEq] at h
      obtain ⟨hst, hresp⟩ := h
      have hcourse : Courses.applyCourseUpdate req row = course :=
        Courses.UpdateCourseResponse.updated.inj hresp
      subst hst
      have hrowmem : row ∈ st.courses.filter (fun c => c.id == courseId) :=
        List.mem_of_mem_head? (by simp [hm])
      have hrowid : row.id = courseId := by
        have := (List.mem_filter.mp hrowmem).2
        simpa using this
      have hrowmem' : row ∈ st.courses := (List.mem_filter.mp hrowmem).1
      have hnone : Courses.cacheLookup
          (Courses.cacheDropPattern "course:*"
            (Courses.cacheDropPattern "courses:*" st.cache)) "courses:all" =
          none :=
        Courses.cacheLookup_drop_of_none _ _ _
          (Courses.cacheLookup_drop_of_match _ _ _ rfl)
      refine ⟨hnone, ?_, ?_, ?_⟩
      · unfold Courses.getCourses
        rw [hnone]
      · unfold Courses.getCourses
        rw [hnone]
        exact Courses.cacheLookup_store _ _ _
      · unfold Courses.coursesFromDb
        refine ⟨_, List.mem_map_of_mem _
          (((List.mergeSort_perm _ _).mem_iff).mpr ?_), hcourse⟩
        refine List.mem_map.mpr ⟨row, hrowmem', ?_⟩
        rw [if_pos hrowid]
        rfl

/-- Example course for the C5 witness. -/
def C5exCourse : Courses.Course :=
  { id := 1, name := "Python", slug := "python", description := none,
    icon := none }

/-- Example state with a stale cached course list. -/
def C5exState : Courses.CourseState :=
  { courses := [C5exCourse], lessons := [], lessonProgress := [],
    cache := [("courses:all", .blob "stale")] }

/-- Example update request: rename the course. -/
def C5exReq : Courses.UpdateCourseReq :=
  { name := some "Python 3", slug := none, description := none, icon := none }

/-- State after the example update. -/
def C5exStateAfter : Courses.CourseState :=
  (Courses.updateCourse C5exState 1 C5exReq).1

/-- The example course as updated (slug regenerated from the new name). -/
def C5exCourseAfter : Courses.Course :=
  { id := 1, name := "Python 3", slug := "python-3", description := none,
    icon := none }

/-- C5 witness: after renaming the course, the stale list is gone and GET
recomputes from the database. -/
theorem C5_witness :
    Courses.cacheLookup C5exStateAfter.cache "courses:all" = none ∧
    (Courses.getCourses C5exStateAfter none).1 =
      .courseList (Courses.coursesFromDb C5exStateAfter none) ∧
    Courses.cacheLookup (Courses.getCourses C5exStateAfter none).2.cache
        "courses:all" =
      some (.courseList (Courses.coursesFromDb C5exStateAfter none)) ∧
    (∃ co ∈ Courses.coursesFromDb C5exStateAfter none,
      co.course = C5exCourseAfter) :=
  C5_cache_invalidation C5exState 1 C5exReq none C5exStateAfter C5exCourseAfter
    (by decide)

namespace App

/-- `clearUserCache` keeps `user_progress`. -/
theorem clearUserCache_userProgress (uid : Nat) (st : AppState) :
    (clearUserCache uid st).userProgress = st.userProgress := rfl

/-- `clearUserCache` keeps `lesson_progress`. -/
theorem clearUserCache_lessonProgress (uid : Nat) (st : AppState) :
    (clearUserCache uid st).lessonProgress = st.lessonProgress := rfl

/-- `addPoints` keeps `user_progress`. -/
theorem addPoints_userProgress (uid : Nat) (p : Int) (st : AppState) :
    (addPoints uid p st).userProgress = st.userProgress := rfl

/-- `addPoints` keeps `lesson_progress`. -/
theorem addPoints_lessonProgress (uid : Nat) (p : Int) (st : AppState) :
    (addPoints uid p st).lessonProgress = st.lessonProgress := rfl

/-- Appending one topic row adds its points to exactly its user's sum. -/
theorem topicPointsOf_append (rows : List TopicRow) (r : TopicRow)
    (uid : Nat) :
    topicPointsOf (rows ++ [r]) uid =
      topicPointsOf rows uid + (if r.user_id = uid then r.points_earned else 0) := by
  unfold topicPointsOf
  rw [List.filter_append, List.map_append, List.sum_append]
  by_cases h : r.user_id = uid <;> simp [h]

/-- Appending one lesson row adds its points to exactly its user's sum. -/
theorem lessonPointsOf_append (rows : List LessonRow) (r : LessonRow)
    (uid : Nat) :
    lessonPointsOf (rows ++ [r]) uid =
      lessonPointsOf rows uid + (if r.user_id = uid then r.points_earned else 0) := by
  unfold lessonPointsOf
  rw [List.filter_append, List.map_append, List.sum_append]
  by_cases h : r.user_id = uid <;> simp [h]

/-- The points invariant only reads `users` and the two progress tables. -/
theorem consistent_congr {st st' : AppState} (h1 : st'.users = st.users)
    (h2 : st'.userProgress = st.userProgress)
    (h3 : st'.lessonProgress = st.lessonProgress)
    (hc : Consistent st) : Consistent st' := by
  intro u hu
  rw [h1] at hu
  have hp : ∀ w, progressSum st' w = progressSum st w := by
    intro w; unfold progressSum; rw [h2, h3]
  rw [hp]
  exact hc u hu

/-- Every user row after `updateStreak` comes from a row with the same id
and the same points totals. -/
theorem updateStreak_users_mem (t : Int) (uid : Nat) (st : AppState) :
    ∀ u' ∈ (updateStreak t uid st).users, ∃ u ∈ st.users,
      u'.id = u.id ∧ u'.total_points = u.total_points ∧
      u'.currency = u.currency := by
  intro u' hu'
  unfold updateStreak at hu'
  cases hf : st.users.find? (fun v => v.id == uid) with
  | none => rw [hf] at hu'; exact ⟨u', hu', rfl, rfl, rfl⟩
  | some user =>
    rw [hf] at hu'
    dsimp only at hu'
    by_cases hd : user.last_activity_date = some t
    · rw [if_pos hd] at hu'
      exact ⟨u', hu', rfl, rfl, rfl⟩
    · rw [if_neg hd] at hu'
      dsimp only at hu'
      obtain ⟨v, hv, rfl⟩ := List.mem_map.mp hu'
      by_cases hv' : v.id = uid
      · rw [if_pos hv']
        exact ⟨v, hv, rfl, rfl, rfl⟩
      · rw [if_neg hv']
        exact ⟨v, hv, rfl, rfl, rfl⟩

/-- `updateStreak` preserves the points invariant. -/
theorem updateStreak_consistent (t : Int) (uid : Nat) (st : AppState)
    (hc : Consistent st) : Consistent (updateStreak t uid st) := by
  intro u' hu'
  have hts := updateStreak_tables t uid st
  have hp : ∀ w, progressSum (updateStreak t uid st) w = progressSum st w := by
    intro w; unfold progressSum; rw [hts.1, hts.2.1]
  obtain ⟨u, hu, hid, htot, hcur⟩ := updateStreak_users_mem t uid st u' hu'
  rw [hp, hid, htot, hcur]
  exact hc u hu

/--
The common points step: after an upsert that changed the per-user row sums
by exactly `q` for `uid` (and nothing for others), crediting `q` to the
user's totals under a guard equivalent to `0 < q` restores the invariant,
provided `q` is nonnegative.
-/
theorem upsert_addPoints_consistent {b : Prop} [Decidable b] (uid : Nat)
    (q : Int) (st st1 : AppState)
    (husers : st1.users = st.users)
    (hrows : ∀ w, progressSum st1 w =
      progressSum st w + (if uid = w then q else 0))
    (hq0 : 0 ≤ q) (hiff : b ↔ 0 < q) (hc : Consistent st) :
    Consistent (if b then addPoints uid q st1 else st1) := by
  have hpadd : ∀ w, progressSum (addPoints uid q st1) w = progressSum st1 w :=
    fun w => rfl
  split
  · rename_i hb
    intro u' hu'
    unfold addPoints at hu'
    dsimp only at hu'
    rw [husers] at hu'
    obtain ⟨v, hv, rfl⟩ := List.mem_map.mp hu'
    obtain ⟨hvt, hvc⟩ := hc v hv
    by_cases hvid : v.id = uid
    · rw [if_pos hvid]
      rw [hpadd, hrows]
      constructor
      · show v.total_points + q = progressSum st v.id + _
        rw [if_pos hvid.symm, hvt]
      · show v.currency + q = progressSum st v.id + _
        rw [if_pos hvid.symm, hvc]
    · rw [if_neg hvid]
      rw [hpadd, hrows, if_neg (fun h => hvid h.symm)]
      rw [add_zero]
      exact ⟨hvt, hvc⟩
  · rename_i hb
    have hq : q = 0 := by
      rcases lt_or_eq_of_le hq0 with h | h
      · exact absurd (hiff.mpr h) hb
      · exact h.symm
    intro u' hu'
    rw [husers] at hu'
    obtain ⟨hvt, hvc⟩ := hc u' hu'
    rw [hrows, hq]
    simp only [ite_self, add_zero]
    exact ⟨hvt, hvc⟩

end App

namespace App

/-- The topic-progress handler keeps the invariant on a first-time
(fresh-key) request with a nonnegative `points_earned` field. -/
theorem updateTopicProgress_consistent (t : Int) (uid : Nat) (topic : String)
    (pp pe : Option Int) (st : AppState)
    (hc : Consistent st)
    (hfresh : st.userProgress.any
      (fun r => r.user_id == uid && r.topic == topic) = false)
    (hn : opNonneg (POp.topicOp uid topic pp pe) = true) :
    Consistent (updateTopicProgress t uid topic pp pe st).1 := by
  unfold updateTopicProgress
  by_cases hbad : topic = "" ∨ pp = none
  · rw [if_pos hbad]; exact hc
  · rw [if_neg hbad]
    cases pp with
    | none => exact hc
    | some p =>
      dsimp only
      generalize hq : jsOrInt pe (if (p == 100) = true then 10 else 0) = q
      have hq0 : 0 ≤ q := by
        rw [← hq]
        unfold jsOrInt
        cases pe with
        | none =>
          dsimp only
          split <;> norm_num
        | some x =>
          have hx : 0 ≤ x := by
            dsimp only [opNonneg] at hn
            exact of_decide_eq_true hn
          dsimp only
          by_cases hx0 : x = 0
          · rw [if_pos hx0]; split <;> norm_num
          · rw [if_neg hx0]; exact hx
      have hins : topicUpsert t uid topic p (p == 100) q st =
          { st with userProgress := st.userProgress ++
              [{ user_id := uid, topic := topic, progress_percentage := p,
                 completed := (p == 100), points_earned := q,
                 completed_at := if (p == 100) = true then some t else none }] } := by
        unfold topicUpsert
        rw [if_neg (by simp [hfresh])]
      have h2 : Consistent (if 0 < q then
          addPoints uid q (topicUpsert t uid topic p (p == 100) q st)
          else topicUpsert t uid topic p (p == 100) q st) := by
        refine upsert_addPoints_consistent uid q st _ ?_ ?_ hq0 Iff.rfl hc
        · rw [hins]
        · intro w
          rw [hins]
          unfold progressSum
          dsimp only
          rw [topicPointsOf_append]
          dsimp only
          ring
      have h3 := updateStreak_consistent t uid _ h2
      apply consistent_congr (clearUserCache_users _ _)
        (clearUserCache_userProgress _ _) (clearUserCache_lessonProgress _ _)
      apply consistent_congr (updateDailyActivity_users t uid _ _ _)
        (updateDailyActivity_userProgress t uid _ _ _)
        (updateDailyActivity_lessonProgress t uid _ _ _)
      exact h3

/-- The lesson-progress handler keeps the invariant on a first-time
(fresh-key) request. -/
theorem updateLessonProgress_consistent (t : Int) (uid lid : Nat)
    (pp : Option Int) (completed : Bool) (st : AppState)
    (hc : Consistent st)
    (hfresh : st.lessonProgress.any
      (fun r => r.user_id == uid && r.lesson_id == lid) = false) :
    Consistent (updateLessonProgress t uid lid pp completed st).1 := by
  unfold updateLessonProgress
  cases pp with
  | none => exact hc
  | some p =>
    dsimp only
    generalize (completed || p == 100) = ic
    generalize hq : (if ic = true then (10:Int) else 0) = q
    have hq0 : 0 ≤ q := by rw [← hq]; cases ic <;> norm_num
    have hiff : (0 < q ∧ ic = true) ↔ 0 < q := by
      cases ic
      · constructor
        · rintro ⟨h1, h2⟩; cases h2
        · intro h1; rw [← hq] at h1; norm_num at h1
      · exact ⟨fun h => h.1, fun h => ⟨h, rfl⟩⟩
    have hins : lessonUpsert t uid lid p ic q st =
        { st with lessonProgress := st.lessonProgress ++
            [{ user_id := uid, lesson_id := lid, progress_percentage := p,
               completed := ic, points_earned := q,
               completed_at := if ic = true then some t else none }] } := by
      unfold lessonUpsert
      rw [if_neg (by simp [hfresh])]
    have h2 : Consistent (if 0 < q ∧ ic = true then
        addPoints uid q (lessonUpsert t uid lid p ic q st)
        else lessonUpsert t uid lid p ic q st) := by
      refine upsert_addPoints_consistent uid q st _ ?_ ?_ hq0 hiff hc
      · rw [hins]
      · intro w
        rw [hins]
        unfold progressSum
        dsimp only
        rw [lessonPointsOf_append]
        dsimp only
        ring
    have h3 := updateStreak_consistent t uid _ h2
    apply consistent_congr (clearUserCache_users _ _)
      (clearUserCache_userProgress _ _) (clearUserCache_lessonProgress _ _)
    apply consistent_congr (updateDailyActivity_users t uid _ _ _)
      (updateDailyActivity_userProgress t uid _ _ _)
      (updateDailyActivity_lessonProgress t uid _ _ _)
    exact h3

end App

namespace App

/-- `lessonUpsert` keeps `user_progress`. -/
theorem lessonUpsert_userProgress (t : Int) (uid lid : Nat) (pp : Int)
    (ic : Bool) (p : Int) (st : AppState) :
    (lessonUpsert t uid lid pp ic p st).userProgress = st.userProgress :=
  (lessonUpsert_rest t uid lid pp ic p st).2.1

/-- `topicUpsert` keeps `lesson_progress`. -/
theorem topicUpsert_lessonProgress (t : Int) (uid : Nat) (topic : String)
    (pp : Int) (ic : Bool) (p : Int) (st : AppState) :
    (topicUpsert t uid topic pp ic p st).lessonProgress = st.lessonProgress :=
  (topicUpsert_rest t uid topic pp ic p st).2.1

/-- The lesson handler never writes `user_progress`. -/
theorem updateLessonProgress_userProgress (t : Int) (uid lid : Nat)
    (pp : Option Int) (c : Bool) (st : AppState) :
    (updateLessonProgress t uid lid pp c st).1.userProgress =
      st.userProgress := by
  unfold updateLessonProgress
  cases pp with
  | none => rfl
  | some p =>
    dsimp only
    rw [clearUserCache_userProgress, updateDailyActivity_userProgress,
      updateStreak_userProgress]
    split <;> split <;>
      simp [addPoints_userProgress, lessonUpsert_userProgress]

/-- The topic handler never writes `lesson_progress`. -/
theorem updateTopicProgress_lessonProgress (t : Int) (uid : Nat)
    (topic : String) (pp pe : Option Int) (st : AppState) :
    (updateTopicProgress t uid topic pp pe st).1.lessonProgress =
      st.lessonProgress := by
  unfold updateTopicProgress
  by_cases hbad : topic = "" ∨ pp = none
  · rw [if_pos hbad]
  · rw [if_neg hbad]
    cases pp with
    | none => rfl
    | some p =>
      dsimp only
      rw [clearUserCache_lessonProgress, updateDailyActivity_lessonProgress,
        updateStreak_lessonProgress]
      split <;> split <;>
        simp [addPoints_lessonProgress, topicUpsert_lessonProgress]

/-- Every `user_progress` row after the topic handler either keeps the key
of an old row or carries the request's key. -/
theorem updateTopicProgress_userProgress_keys (t : Int) (uid : Nat)
    (topic : String) (pp pe : Option Int) (st : AppState) :
    ∀ r' ∈ (updateTopicProgress t uid topic pp pe st).1.userProgress,
      (∃ r ∈ st.userProgress, r'.user_id = r.user_id ∧ r'.topic = r.topic) ∨
      (r'.user_id = uid ∧ r'.topic = topic) := by
  intro r' hr'
  unfold updateTopicProgress at hr'
  by_cases hbad : topic = "" ∨ pp = none
  · rw [if_pos hbad] at hr'
    exact Or.inl ⟨r', hr', rfl, rfl⟩
  · rw [if_neg hbad] at hr'
    cases pp with
    | none => exact Or.inl ⟨r', hr', rfl, rfl⟩
    | some p =>
      dsimp only at hr'
      rw [clearUserCache_userProgress, updateDailyActivity_userProgress,
        updateStreak_userProgress] at hr'
      set q := jsOrInt pe (if (p == 100) = true then 10 else 0) with hq
      have hr2 : r' ∈
          (topicUpsert t uid topic p (p == 100) q st).userProgress := by
        revert hr'
        split
        · rw [addPoints_userProgress]; exact id
        · exact id
      unfold topicUpsert at hr2
      by_cases hex : st.userProgress.any
          (fun r => r.user_id == uid && r.topic == topic) = true
      · rw [if_pos hex] at hr2
        dsimp only at hr2
        obtain ⟨r, hr, rfl⟩ := List.mem_map.mp hr2
        by_cases hk : r.user_id = uid ∧ r.topic = topic
        · rw [if_pos hk]; exact Or.inl ⟨r, hr, rfl, rfl⟩
        · rw [if_neg hk]; exact Or.inl ⟨r, hr, rfl, rfl⟩
      · rw [if_neg hex] at hr2
        dsimp only at hr2
        rcases List.mem_append.mp hr2 with h | h
        · exact Or.inl ⟨r', h, rfl, rfl⟩
        · rw [List.mem_singleton] at h
          subst h
          exact Or.inr ⟨rfl, rfl⟩

/-- Every `lesson_progress` row after the lesson handler either keeps the
key of an old row or carries the request's key. -/
theorem updateLessonProgress_lessonProgress_keys (t : Int) (uid lid : Nat)
    (pp : Option Int) (c : Bool) (st : AppState) :
    ∀ r' ∈ (updateLessonProgress t uid lid pp c st).1.lessonProgress,
      (∃ r ∈ st.lessonProgress,
        r'.user_id = r.user_id ∧ r'.lesson_id = r.lesson_id) ∨
      (r'.user_id = uid ∧ r'.lesson_id = lid) := by
  intro r' hr'
  unfold updateLessonProgress at hr'
  cases pp with
  | none => exact Or.inl ⟨r', hr', rfl, rfl⟩
  | some p =>
    dsimp only at hr'
    rw [clearUserCache_lessonProgress, updateDailyActivity_lessonProgress,
      updateStreak_lessonProgress] at hr'
    set q := (if (c || p == 100) = true then (10:Int) else 0) with hq
    have hr2 : r' ∈
        (lessonUpsert t uid lid p (c || p == 100) q st).lessonProgress := by
      revert hr'
      split
      · rw [addPoints_lessonProgress]; exact id
      · exact id
    unfold lessonUpsert at hr2
    by_cases hex : st.lessonProgress.any
        (fun r => r.user_id == uid && r.lesson_id == lid) = true
    · rw [if_pos hex] at hr2
      dsimp only at hr2
      obtain ⟨r, hr, rfl⟩ := List.mem_map.mp hr2
      by_cases hk : r.user_id = uid ∧ r.lesson_id = lid
      · rw [if_pos hk]; exact Or.inl ⟨r, hr, rfl, rfl⟩
      · rw [if_neg hk]; exact Or.inl ⟨r, hr, rfl, rfl⟩
    · rw [if_neg hex] at hr2
      dsimp only at hr2
      rcases List.mem_append.mp hr2 with h | h
      · exact Or.inl ⟨r', h, rfl, rfl⟩
      · rw [List.mem_singleton] at h
        subst h
        exact Or.inr ⟨rfl, rfl⟩

/-- A request with a different key stays fresh after another request. -/
theorem opFresh_preserved (t : Int) (st : AppState) (op op' : POp)
    (h' : opFresh st op' = true) (hne : opKey op' ≠ opKey op) :
    opFresh (applyOp t st op) op' = true := by
  cases op' with
  | topicOp u' t' pp' pe' =>
    dsimp only [opFresh] at h' ⊢
    rw [Bool.not_eq_true'] at h' ⊢
    rw [List.any_eq_false] at h' ⊢
    intro r hr
    cases op with
    | lessonOp u2 l2 pp2 c2 =>
      dsimp only [applyOp] at hr
      rw [updateLessonProgress_userProgress] at hr
      exact h' r hr
    | topicOp u2 t2 pp2 pe2 =>
      dsimp only [applyOp] at hr
      rcases updateTopicProgress_userProgress_keys t u2 t2 pp2 pe2 st r hr with
        ⟨r0, hr0, hk1, hk2⟩ | ⟨hk1, hk2⟩
      · have hold := h' r0 hr0
        simp only [Bool.and_eq_true, beq_iff_eq] at hold ⊢
        rw [hk1, hk2]
        exact hold
      · intro hcontra
        simp only [Bool.and_eq_true, beq_iff_eq] at hcontra
        apply hne
        dsimp only [opKey]
        rw [hcontra.1.symm.trans hk1, hcontra.2.symm.trans hk2]
  | lessonOp u' l' pp' c' =>
    dsimp only [opFresh] at h' ⊢
    rw [Bool.not_eq_true'] at h' ⊢
    rw [List.any_eq_false] at h' ⊢
    intro r hr
    cases op with
    | topicOp u2 t2 pp2 pe2 =>
      dsimp only [applyOp] at hr
      rw [updateTopicProgress_lessonProgress] at hr
      exact h' r hr
    | lessonOp u2 l2 pp2 c2 =>
      dsimp only [applyOp] at hr
      rcases updateLessonProgress_lessonProgress_keys t u2 l2 pp2 c2 st r hr with
        ⟨r0, hr0, hk1, hk2⟩ | ⟨hk1, hk2⟩
      · have hold := h' r0 hr0
        simp only [Bool.and_eq_true, beq_iff_eq] at hold ⊢
        rw [hk1, hk2]
        exact hold
      · intro hcontra
        simp only [Bool.and_eq_true, beq_iff_eq] at hcontra
        apply hne
        dsimp only [opKey]
        rw [hcontra.1.symm.trans hk1, hcontra.2.symm.trans hk2]

/-- One fresh, nonnegative request preserves the invariant. -/
theorem applyOp_consistent (t : Int) (st : AppState) (op : POp)
    (hc : Consistent st) (hf : opFresh st op = true)
    (hn : opNonneg op = true) : Consistent (applyOp t st op) := by
  cases op with
  | topicOp u tp pp pe =>
    dsimp only [applyOp]
    refine updateTopicProgress_consistent t u tp pp pe st hc ?_ hn
    dsimp only [opFresh] at hf
    rw [Bool.not_eq_true'] at hf
    exact hf
  | lessonOp u l pp c =>
    dsimp only [applyOp]
    refine updateLessonProgress_consistent t u l pp c st hc ?_
    dsimp only [opFresh] at hf
    rw [Bool.not_eq_true'] at hf
    exact hf

end App

/--
C2 counterexample: two identical completed submissions for the same lesson
leave the user's `total_points` (and `currency`) at 20 while the sum of
`points_earned` over the user's progress rows is 10 — the invariant fails
after repeated updates because the row is overwritten while the user total
is incremented again.
-/
theorem C2_counterexample :
    ¬ App.Consistent (App.applyOps 100 C1exState
        [.lessonOp 1 5 (some 100) false, .lessonOp 1 5 (some 100) false]) := by
  unfold App.Consistent
  decide

/--
C2 amended: the invariant holds after any sequence of progress-update
operations in which each (user, topic) and each (user, lesson) key is
written at most once, starts absent from the tables, and no operation
carries a negative `points_earned` body value; repeated writes to the same
key (or negative point values) can break it.
-/
theorem C2_points_invariant (today : Int) (st : App.AppState)
    (ops : List App.POp)
    (hc : App.Consistent st)
    (hfresh : ∀ op ∈ ops, App.opFresh st op = true)
    (hkeys : (ops.map App.opKey).Nodup)
    (hnn : ∀ op ∈ ops, App.opNonneg op = true) :
    App.Consistent (App.applyOps today st ops) := by
  induction ops generalizing st with
  | nil => exact hc
  | cons op ops ih =>
    have hfop := hfresh op (List.mem_cons_self _ _)
    have hnop := hnn op (List.mem_cons_self _ _)
    have hc' := App.applyOp_consistent today st op hc hfop hnop
    rw [List.map_cons, List.nodup_cons] at hkeys
    refine ih (App.applyOp today st op) hc' ?_ hkeys.2
      (fun o ho => hnn o (List.mem_cons_of_mem _ ho))
    intro o ho
    refine App.opFresh_preserved today st op o
      (hfresh o (List.mem_cons_of_mem _ ho)) ?_
    intro heq
    exact hkeys.1 (heq ▸ List.mem_map_of_mem App.opKey ho)

/-- C2 witness: a fresh topic write and a fresh lesson write keep the
totals equal to the row sums. -/
theorem C2_witness :
    App.Consistent (App.applyOps 100 C1exState
      [.topicOp 1 "loops" (some 100) none, .lessonOp 1 5 (some 100) false]) :=
  C2_points_invariant 100 C1exState
    [.topicOp 1 "loops" (some 100) none, .lessonOp 1 5 (some 100) false]
    (by unfold App.Consistent; decide) (by decide) (by decide) (by decide)
